import Mathlib

/-!
Verification development for the JSX style-to-CSS-module refactoring engine.

The definitions below are a shallow embedding of the repository's core
TypeScript functions:

* `src/src/utils/transform-jsx-style-to-class-name.ts` (acorn-AST variant):
  the position resolver, static-value classifier, style partitioner and
  span-edit rewriter.
* the style-helpers module (`camelToKebab`, `classExistsInCSS`,
  `generateRandomClassName`, `generateUniqueClassName`).

Modelling conventions:

* JavaScript strings are Lean `String`s; `String.slice(a, b)` is modelled by
  list `take`/`drop` on `String.data` (both clamp out-of-range indices).
* `Math.floor(Math.random() * 1000)` produces a value in `0..999`; the
  sequence of random draws is modelled as an explicit stream
  `Nat → Fin 1000` passed to the generator.
* The regular expression `\.${className}\s*\{` built by `classExistsInCSS`
  treats `className` as literal text whenever the name contains no regex
  metacharacters (the names this program produces are of the shape
  `tag-123`); the embedding is the corresponding literal-pattern scan, and
  theorems about it carry the metacharacter-free hypothesis.
* `\s` is modelled by the ASCII whitespace characters it matches.
-/

/-! ## Shared string helpers -/

/-- JavaScript `\s` (ASCII part): space, tab, newline, carriage return,
vertical tab, form feed. -/
def isJsWs (c : Char) : Bool :=
  c = ' ' || c = '\t' || c = '\n' || c = '\r' || c = '\x0b' || c = '\x0c'

/-- Strip the first argument from the front of the second; `some rest` on
success. -/
def stripLead : List Char → List Char → Option (List Char)
  | [], s => some s
  | _ :: _, [] => none
  | p :: ps, c :: cs => if c = p then stripLead ps cs else none

/-! ## Style helpers (`generateRandomClassName`, `classExistsInCSS`,
`generateUniqueClassName`) -/

/-- The `\s*\{` tail of the class-existence regex: skip whitespace, then
require an opening brace. -/
def wsOpen : List Char → Bool
  | [] => false
  | c :: r => if c = '\x7b' then true else if isJsWs c then wsOpen r else false

/-- Does `\.name\s*\{` match at the start of the text? -/
def matchAt (name : List Char) : List Char → Bool
  | '.' :: r =>
    match stripLead name r with
    | some r' => wsOpen r'
    | none => false
  | _ => false

/-- Does `\.name\s*\{` match anywhere in the text? (`RegExp.test`). -/
def hasClassPattern (name : List Char) : List Char → Bool
  | [] => false
  | c :: r => matchAt name (c :: r) || hasClassPattern name r

/-- `classExistsInCSS(cssContent, className)`: test the regex
`\.${className}\s*\{` against the CSS text. -/
def classExistsInCSS (cssContent className : String) : Bool :=
  hasClassPattern className.data cssContent.data

/-- `generateRandomClassName(tagName?)`: `` `${tagName || 'element'}-${n}` ``
with `n = Math.floor(Math.random() * 1000)`.  The random draw is an explicit
argument; `tagName || 'element'` also falls back on the empty string (JS
falsiness). -/
def generateRandomClassName (tagName : Option String) (draw : Fin 1000) : String :=
  (match tagName with
    | some t => if t = "" then "element" else t
    | none => "element") ++ "-" ++ toString draw.val

/-- The message of the error thrown on retry exhaustion. -/
def maxRetriesMessage : String := "Max retries generating unique class name"

/-- The `while (classExistsInCSS(...) && attempts < maxRetries)` loop of
`generateUniqueClassName`, followed by the `attempts >= maxRetries` check.
`stream k` is the value of the `k`-th call to `Math.random`. -/
def guLoop (cssContent : String) (tagName : Option String) (maxRetries : Nat)
    (stream : Nat → Fin 1000) (attempts : Nat) (className : String) :
    Except String String :=
  if h : classExistsInCSS cssContent className = true ∧ attempts < maxRetries then
    guLoop cssContent tagName maxRetries stream (attempts + 1)
      (generateRandomClassName tagName (stream (attempts + 1)))
  else if maxRetries ≤ attempts then
    Except.error maxRetriesMessage
  else
    Except.ok className
termination_by maxRetries - attempts
decreasing_by omega

/-- `generateUniqueClassName(cssContent, tagName?, maxRetries = 100)`:
draw an initial name, then run the retry loop.  A thrown error is modelled
as `Except.error`. -/
def generateUniqueClassName (cssContent : String) (tagName : Option String)
    (maxRetries : Nat) (stream : Nat → Fin 1000) : Except String String :=
  guLoop cssContent tagName maxRetries stream 0
    (generateRandomClassName tagName (stream 0))

/-! ### A CSS text containing `.t-0` through `.t-999` (for the uniqueness
bound scenario) -/

/-- One CSS rule `.t-<i> {}` followed by a newline. -/
def cssBlock (i : Nat) : List Char :=
  '.' :: ("t-" ++ toString i).data ++ [' ', '\x7b', '\x7d', '\n']

/-- Concatenation of `cssBlock 0 … cssBlock (count-1)`. -/
def cssAllData : Nat → List Char
  | 0 => []
  | k + 1 => cssAllData k ++ cssBlock k

/-- A CSS text containing a rule for every class `.t-0` … `.t-999`. -/
def cssThousand : String := ⟨cssAllData 1000⟩

/-! ## The acorn AST model

One constructor per node kind used by `transform-jsx-style-to-class-name.ts`;
`otherNode` stands for every other node kind (Program, CallExpression,
ConditionalExpression, ArrowFunctionExpression, …) with its child nodes in
source order.  `start`/`stop` are the node's `start`/`end` offsets.  Child
lists and optional children use the mutually defined `ANodeList`/`OptANode`
so that all functions below are structurally recursive. -/

/-- The payload of an acorn `Literal` node's `value` field
(`string | number | boolean | null`; numbers restricted to integers, whose
JS string conversion is exact decimal). -/
inductive LitVal : Type where
  | str (s : String)
  | num (n : Int)
  | bool (b : Bool)
  | nullV
deriving DecidableEq, Repr

/-- `Property.kind` (`'init' | 'get' | 'set'`); not inspected by
`extractStyles`. -/
inductive PropKind : Type where
  | init
  | get
  | set
deriving DecidableEq, Repr

mutual
inductive ANode : Type where
  | jsxElement (start stop : Nat) (opening : ANode) (closing : OptANode)
      (children : ANodeList)
  | jsxOpeningElement (start stop : Nat) (name : ANode) (attributes : ANodeList)
      (selfClosing : Bool)
  | jsxClosingElement (start stop : Nat) (name : ANode)
  | jsxIdentifier (start stop : Nat) (name : String)
  | jsxAttribute (start stop : Nat) (name : ANode) (value : OptANode)
  | jsxExpressionContainer (start stop : Nat) (expression : ANode)
  | objectExpression (start stop : Nat) (properties : ANodeList)
  | property (start stop : Nat) (computed : Bool) (kind : PropKind)
      (key : ANode) (value : ANode)
  | spreadElement (start stop : Nat) (argument : ANode)
  | identifier (start stop : Nat) (name : String)
  | literal (start stop : Nat) (value : LitVal) (raw : String)
  | templateLiteral (start stop : Nat) (quasis : ANodeList) (expressions : ANodeList)
  | templateElement (start stop : Nat) (raw cooked : String) (tail : Bool)
  | otherNode (start stop : Nat) (children : ANodeList)
inductive ANodeList : Type where
  | nil
  | cons (head : ANode) (tail : ANodeList)
inductive OptANode : Type where
  | none
  | some (node : ANode)
end

def ANodeList.toList : ANodeList → List ANode
  | .nil => []
  | .cons h t => h :: t.toList

def ANodeList.length : ANodeList → Nat
  | .nil => 0
  | .cons _ t => t.length + 1

/-- `Array.prototype.find`: first element satisfying the predicate. -/
def ANodeList.find? (p : ANode → Bool) : ANodeList → Option ANode
  | .nil => Option.none
  | .cons h t => if p h then Option.some h else ANodeList.find? p t

def OptANode.toOption : OptANode → Option ANode
  | .none => Option.none
  | .some n => Option.some n

def startOf : ANode → Nat
  | .jsxElement s _ _ _ _ => s
  | .jsxOpeningElement s _ _ _ _ => s
  | .jsxClosingElement s _ _ => s
  | .jsxIdentifier s _ _ => s
  | .jsxAttribute s _ _ _ => s
  | .jsxExpressionContainer s _ _ => s
  | .objectExpression s _ _ => s
  | .property s _ _ _ _ _ => s
  | .spreadElement s _ _ => s
  | .identifier s _ _ => s
  | .literal s _ _ _ => s
  | .templateLiteral s _ _ _ => s
  | .templateElement s _ _ _ _ => s
  | .otherNode s _ _ => s

def endOf : ANode → Nat
  | .jsxElement _ e _ _ _ => e
  | .jsxOpeningElement _ e _ _ _ => e
  | .jsxClosingElement _ e _ => e
  | .jsxIdentifier _ e _ => e
  | .jsxAttribute _ e _ _ => e
  | .jsxExpressionContainer _ e _ => e
  | .objectExpression _ e _ => e
  | .property _ e _ _ _ _ => e
  | .spreadElement _ e _ => e
  | .identifier _ e _ => e
  | .literal _ e _ _ => e
  | .templateLiteral _ e _ _ => e
  | .templateElement _ e _ _ _ => e
  | .otherNode _ e _ => e

/-- The `.name` string of an identifier-like node (`undefined` → `none`). -/
def identName : ANode → Option String
  | .jsxIdentifier _ _ n => Option.some n
  | .identifier _ _ n => Option.some n
  | _ => Option.none

/-! ## String slicing (JS `String.prototype.slice` on in-range indices) -/

/-- `s.slice(a, b)` for `0 ≤ a`, `b` clamped to the length. -/
def sliceStr (s : String) (a b : Nat) : String := ⟨(s.data.take b).drop a⟩

/-- `s.slice(a)`. -/
def sliceFrom (s : String) (a : Nat) : String := ⟨s.data.drop a⟩

/-- JS `String(value)` on a literal's value. -/
def litToString : LitVal → String
  | .str s => s
  | .num n => toString n
  | .bool b => if b then "true" else "false"
  | .nullV => "null"

/-! ## Static value classifier (`isStaticValue` / `getStaticValue`) -/

/-- `isStaticValue`: `node.type === 'Literal' ||
(node.type === 'TemplateLiteral' && node.expressions.length === 0)`. -/
def isStaticValue : ANode → Bool
  | .literal _ _ _ _ => true
  | .templateLiteral _ _ _ exprs => exprs.length == 0
  | _ => false

/-- `quasis[0].value.cooked` (the node is always a `TemplateElement` in an
acorn tree; the default is never reached on real trees). -/
def cookedOf : ANode → String
  | .templateElement _ _ _ cooked _ => cooked
  | _ => ""

/-- `getStaticValue`: `String(node.value)` for a `Literal`,
`quasis[0].value.cooked` for a zero-expression template, `''` otherwise.
(`quasis[0]` of an empty quasis array would throw in JS; acorn guarantees a
quasi, the `.nil` default is unreachable on real trees.) -/
def getStaticValue : ANode → String
  | .literal _ _ v _ => litToString v
  | .templateLiteral _ _ quasis exprs =>
    if exprs.length == 0 then
      match quasis with
      | .cons q _ => cookedOf q
      | .nil => ""
    else ""
  | _ => ""

/-! ## Style partitioner (`extractStyles`) -/

structure StyleProperty where
  name : String
  value : String
deriving DecidableEq, Repr

structure DynProp where
  start : Nat
  stop : Nat
  text : String
deriving DecidableEq, Repr

/-- Property-name resolution (lines 223–235): identifier key, then
string-literal key, otherwise the property is dynamic. -/
def keyName : ANode → Option String
  | .identifier _ _ n => Option.some n
  | .literal _ _ (.str s) _ => Option.some s
  | _ => Option.none

/-- `extractStyles(objectExpr, sourceCode)` over the object's `properties`
list: computed keys, unresolvable keys, dynamic values and spreads go to
`dynamicProperties` (with their raw source slice); static keyed assignments
go to `staticStyles`.  Node kinds other than `Property`/`SpreadElement`
fall through both `if` branches in the source and are skipped (they cannot
occur in an acorn object literal). -/
def extractStyles : ANodeList → String → List StyleProperty × List DynProp
  | .nil, _ => ([], [])
  | .cons p rest, sourceCode =>
    let r := extractStyles rest sourceCode
    match p with
    | .property s e computed _ key value =>
      if computed then
        (r.1, ⟨s, e, sliceStr sourceCode s e⟩ :: r.2)
      else
        match keyName key with
        | Option.some name =>
          if isStaticValue value then
            (⟨name, getStaticValue value⟩ :: r.1, r.2)
          else
            (r.1, ⟨s, e, sliceStr sourceCode s e⟩ :: r.2)
        | Option.none => (r.1, ⟨s, e, sliceStr sourceCode s e⟩ :: r.2)
    | .spreadElement s e _ => (r.1, ⟨s, e, sliceStr sourceCode s e⟩ :: r.2)
    | _ => r

/-- The static partition of one property (one iteration of the
`extractStyles` loop). -/
def staticEntryOf (p : ANode) : Option StyleProperty :=
  match p with
  | .property _ _ computed _ key value =>
    if computed then Option.none
    else
      match keyName key with
      | Option.some name =>
        if isStaticValue value then Option.some ⟨name, getStaticValue value⟩
        else Option.none
      | Option.none => Option.none
  | _ => Option.none

/-- The dynamic partition of one property (one iteration of the
`extractStyles` loop). -/
def dynEntryOf (sourceCode : String) (p : ANode) : Option DynProp :=
  match p with
  | .property s e computed _ key value =>
    if computed then Option.some ⟨s, e, sliceStr sourceCode s e⟩
    else
      match keyName key with
      | Option.some _ =>
        if isStaticValue value then Option.none
        else Option.some ⟨s, e, sliceStr sourceCode s e⟩
      | Option.none => Option.some ⟨s, e, sliceStr sourceCode s e⟩
  | .spreadElement s e _ => Option.some ⟨s, e, sliceStr sourceCode s e⟩
  | _ => Option.none

/-- Membership in an acorn object literal: `Property` or `SpreadElement`. -/
def isObjMember : ANode → Bool
  | .property _ _ _ _ _ _ => true
  | .spreadElement _ _ _ => true
  | _ => false

/-! ## Position resolver

`walk` visits a node, then recurses into its node-valued fields in
declaration order.  The source recovers a node's parent by re-walking the
whole tree from the root (`findJSXElementWithStyleAtPosition`, lines
165–176); under the JS object-identity semantics that is exactly the
structural parent, so the embedding carries the ancestor chain (nearest
first) alongside every visited node. -/

mutual
def walkOne : ANode → List ANode → List (ANode × List ANode)
  | n@(.jsxElement _ _ opening closing children), path =>
    (n, path) ::
      (walkOne opening (n :: path) ++ walkOpt closing (n :: path) ++
        walkList children (n :: path))
  | n@(.jsxOpeningElement _ _ nm attrs _), path =>
    (n, path) :: (walkOne nm (n :: path) ++ walkList attrs (n :: path))
  | n@(.jsxClosingElement _ _ nm), path => (n, path) :: walkOne nm (n :: path)
  | n@(.jsxIdentifier _ _ _), path => [(n, path)]
  | n@(.jsxAttribute _ _ nm value), path =>
    (n, path) :: (walkOne nm (n :: path) ++ walkOpt value (n :: path))
  | n@(.jsxExpressionContainer _ _ expr), path => (n, path) :: walkOne expr (n :: path)
  | n@(.objectExpression _ _ props), path => (n, path) :: walkList props (n :: path)
  | n@(.property _ _ _ _ key value), path =>
    (n, path) :: (walkOne key (n :: path) ++ walkOne value (n :: path))
  | n@(.spreadElement _ _ arg), path => (n, path) :: walkOne arg (n :: path)
  | n@(.identifier _ _ _), path => [(n, path)]
  | n@(.literal _ _ _ _), path => [(n, path)]
  | n@(.templateLiteral _ _ quasis exprs), path =>
    (n, path) :: (walkList quasis (n :: path) ++ walkList exprs (n :: path))
  | n@(.templateElement _ _ _ _ _), path => [(n, path)]
  | n@(.otherNode _ _ children), path => (n, path) :: walkList children (n :: path)
def walkOpt : OptANode → List ANode → List (ANode × List ANode)
  | .none, _ => []
  | .some n, path => walkOne n path
def walkList : ANodeList → List ANode → List (ANode × List ANode)
  | .nil, _ => []
  | .cons h t, path => walkOne h path ++ walkList t path
end

/-- One step of the `findNodeAtOffset` fold: keep the node when it contains
the offset and is nested inside (or replaces) the current candidate. -/
def chooseNode (offset : Nat) (found : Option (ANode × List ANode))
    (np : ANode × List ANode) : Option (ANode × List ANode) :=
  if startOf np.1 ≤ offset ∧ offset ≤ endOf np.1 then
    match found with
    | Option.none => Option.some np
    | Option.some f =>
      if startOf np.1 ≥ startOf f.1 ∧ endOf np.1 ≤ endOf f.1 then Option.some np
      else found
  else found

/-- `findNodeAtOffset(root, offset)`: pre-order fold keeping the innermost
node whose span contains the offset. -/
def findNodeAtOffset (root : ANode) (offset : Nat) :
    Option (ANode × List ANode) :=
  (walkOne root []).foldl (chooseNode offset) Option.none

/-- Is this a `JSXAttribute` whose `name.name` equals `attrName`? -/
def isJsxAttrNamed (a : ANode) (attrName : String) : Bool :=
  match a with
  | .jsxAttribute _ _ nm _ => identName nm == Option.some attrName
  | _ => false

/-- `attributes.find(attr => attr.type === 'JSXAttribute' &&
attr.name.name === 'style')`. -/
def styleAttrOf (attrs : ANodeList) : Option ANode :=
  ANodeList.find? (fun a => isJsxAttrNamed a "style") attrs

/-- The data the transform reads off a style-bearing element: its attribute
list, the spans of the style attribute and of its object-literal
expression, and the object's properties.  `none` exactly when one of the
source's checks (`JSXElement`, style attribute present, value an expression
container, expression an object literal) fails. -/
structure StyleInfo where
  attrs : ANodeList
  attrStart : Nat
  attrEnd : Nat
  exprStart : Nat
  exprEnd : Nat
  props : ANodeList

def styleInfoOf : ANode → Option StyleInfo
  | .jsxElement _ _ (.jsxOpeningElement _ _ _ attrs _) _ _ =>
    match styleAttrOf attrs with
    | Option.some (.jsxAttribute aStart aEnd _
        (.some (.jsxExpressionContainer _ _ (.objectExpression oStart oEnd props)))) =>
      Option.some ⟨attrs, aStart, aEnd, oStart, oEnd, props⟩
    | _ => Option.none
  | _ => Option.none

/-- The element's tag name, `openingElement.name.name`. -/
def elemNameOf : ANode → String
  | .jsxElement _ _ (.jsxOpeningElement _ _ nm _ _) _ _ => (identName nm).getD ""
  | _ => ""

/-- The resolver's predicate: a `JSXElement` whose style attribute is bound
to an expression container holding an object literal. -/
def isStyledJSXElement (e : ANode) : Bool := (styleInfoOf e).isSome

/-- The `while (node) { … node = parent }` ancestor climb. -/
def climbToStyled : List ANode → Option ANode
  | [] => Option.none
  | n :: rest => if isStyledJSXElement n then Option.some n else climbToStyled rest

/-- `findJSXElementWithStyleAtPosition(root, offset)`. -/
def findJSXElementWithStyleAtPosition (root : ANode) (offset : Nat) :
    Option ANode :=
  match findNodeAtOffset root offset with
  | Option.none => Option.none
  | Option.some (n, path) => climbToStyled (n :: path)

/-! ## Element rewriter -/

/-- `/^[a-z][a-z0-9]*$/i.test(str)`: with the legacy `i` flag, `[a-z]`
matches exactly the ASCII letters of either case. -/
def isAsciiLetter (c : Char) : Bool :=
  ('a' ≤ c && c ≤ 'z') || ('A' ≤ c && c ≤ 'Z')

def isDigitChar (c : Char) : Bool := '0' ≤ c && c ≤ '9'

def isValidIdentifier (s : String) : Bool :=
  match s.data with
  | [] => false
  | c :: cs => isAsciiLetter c && cs.all (fun d => isAsciiLetter d || isDigitChar d)

/-- Lines 319–321: `styles.<name>` for identifier-shaped names, otherwise
`styles["<name>"]`. -/
def classNameValueOf (className : String) : String :=
  if isValidIdentifier className then "styles." ++ className
  else "styles[\"" ++ className ++ "\"]"

structure Edit where
  start : Nat
  stop : Nat
  replacement : String
deriving DecidableEq, Repr

/-- `Array.prototype.join(', ')`. -/
def joinCommaSpace : List String → String
  | [] => ""
  | [x] => x
  | x :: xs => x ++ ", " ++ joinCommaSpace xs

/-- `` `{ ${dynamicPropsText} }` ``: the object literal holding only the
dynamic properties, in source order. -/
def dynObjLit (ds : List DynProp) : String :=
  "\x7b " ++ joinCommaSpace (ds.map (·.text)) ++ " \x7d"

/-- Lines 362–366 / 376–380: extend the removal one character to the left
when the character before the style attribute is a space. -/
def removeStartOf (src : String) (attrStart : Nat) : Nat :=
  if sliceStr src (attrStart - 1) attrStart = " " then attrStart - 1 else attrStart

def startsWithChar (s : String) (c : Char) : Bool :=
  match s.data with
  | [] => false
  | d :: _ => d = c

def endsWithChar (s : String) (c : Char) : Bool :=
  match s.data.getLast? with
  | Option.none => false
  | Option.some d => d = c

/-- `existingValue.slice(1, -1)`. -/
def innerSlice (s : String) : String := ⟨(s.data.take (s.data.length - 1)).drop 1⟩

/-- `attr.value`. -/
def attrValueNode : ANode → Option ANode
  | .jsxAttribute _ _ _ v => v.toOption
  | _ => Option.none

/-- Lines 318–398: build the edit list.  With an existing class attribute,
its value is rewritten (template join around an expression value, plain
replacement otherwise) and the style attribute is separately updated or
removed; without one, a single edit replaces the whole style attribute with
the new class attribute (and residual style object when dynamic properties
remain). -/
def buildEdits (src : String) (attrs : ANodeList)
    (attrStart attrEnd exprStart exprEnd : Nat) (ds : List DynProp)
    (className classAttribute : String) : List Edit :=
  let classNameValue := classNameValueOf className
  match ANodeList.find? (fun a => isJsxAttrNamed a classAttribute) attrs with
  | Option.some existingClassAttr =>
    let classEdits :=
      match attrValueNode existingClassAttr with
      | Option.some v =>
        let vs := startOf v
        let ve := endOf v
        let existingValue := sliceStr src vs ve
        if startsWithChar existingValue '\x7b' && endsWithChar existingValue '\x7d' then
          [Edit.mk vs ve ("\x7b`$\x7b" ++ innerSlice existingValue ++ "\x7d $\x7b" ++
            classNameValue ++ "\x7d`\x7d")]
        else
          [Edit.mk vs ve ("\x7b" ++ classNameValue ++ "\x7d")]
      | Option.none => []
    let styleEdits :=
      if ds.length > 0 then
        [Edit.mk exprStart exprEnd (dynObjLit ds)]
      else
        [Edit.mk (removeStartOf src attrStart) attrEnd ""]
    classEdits ++ styleEdits
  | Option.none =>
    let removeStart := removeStartOf src attrStart
    if ds.length > 0 then
      [Edit.mk removeStart attrEnd (" " ++ classAttribute ++ "=\x7b" ++ classNameValue ++
        "\x7d style=\x7b" ++ dynObjLit ds ++ "\x7d")]
    else
      [Edit.mk removeStart attrEnd (" " ++ classAttribute ++ "=\x7b" ++ classNameValue ++ "\x7d")]

/-- Stable insertion for the descending-by-start sort
(`edits.sort((a, b) => b.start - a.start)`). -/
def insertDesc (e : Edit) : List Edit → List Edit
  | [] => [e]
  | x :: xs => if x.start < e.start then e :: x :: xs else x :: insertDesc e xs

def sortEditsDesc (edits : List Edit) : List Edit :=
  edits.foldl (fun acc e => insertDesc e acc) []

/-- `code.slice(0, edit.start) + edit.replacement + code.slice(edit.end)`. -/
def applyEdit (code : String) (e : Edit) : String :=
  sliceStr code 0 e.start ++ e.replacement ++ sliceFrom code e.stop

def applyEdits (code : String) (edits : List Edit) : String :=
  edits.foldl applyEdit code

/-! ## Top-level transform -/

structure TransformInput where
  ast : ANode
  sourceCode : String
  offset : Nat
  className : String
  classAttribute : String

structure TransformResult where
  transformedCode : String
  extractedStyles : List StyleProperty
  elementName : String
  className : String
deriving DecidableEq, Repr

/-- Lines 277–419, after the resolver has produced an element: re-locate
the style attribute and its object literal (the `null` returns for the
missing/non-container/non-object cases collapse into `styleInfoOf`), run
`extractStyles`, return the unchanged source when nothing is static,
otherwise apply the edit list. -/
def transformOnElement (sourceCode className classAttribute : String)
    (e : ANode) : Option TransformResult :=
  match styleInfoOf e with
  | Option.none => Option.none
  | Option.some info =>
    let r := extractStyles info.props sourceCode
    if r.1.length == 0 then
      Option.some (TransformResult.mk sourceCode [] (elemNameOf e) className)
    else
      Option.some (TransformResult.mk
        (applyEdits sourceCode (sortEditsDesc (buildEdits sourceCode info.attrs
          info.attrStart info.attrEnd info.exprStart info.exprEnd r.2
          className classAttribute)))
        r.1 (elemNameOf e) className)

/-- `transformJsxStyleToClassName(input)`. -/
def transformJsxStyleToClassName (input : TransformInput) : Option TransformResult :=
  match findJSXElementWithStyleAtPosition input.ast input.offset with
  | Option.none => Option.none
  | Option.some e =>
    transformOnElement input.sourceCode input.className input.classAttribute e

/-! ## Spec-side predicates and concrete inputs used by the claims -/

/-- The spec's identifier pattern `^[A-Za-z][A-Za-z0-9]*$`, written
independently of `isValidIdentifier`. -/
def identRegexSpec (s : String) : Prop :=
  match s.data with
  | [] => False
  | c :: cs =>
    (('A' ≤ c ∧ c ≤ 'Z') ∨ ('a' ≤ c ∧ c ≤ 'z')) ∧
      ∀ d ∈ cs, ('A' ≤ d ∧ d ≤ 'Z') ∨ ('a' ≤ d ∧ d ≤ 'z') ∨ ('0' ≤ d ∧ d ≤ '9')

/-- A generic substring check (JS `String.prototype.includes`). -/
def containsSub (needle : List Char) : List Char → Bool
  | [] => decide (needle = [])
  | c :: r => (stripLead needle (c :: r)).isSome || containsSub needle r

def strContains (s pat : String) : Bool := containsSub pat.data s.data

/-- The four static literal forms named by the spec: string, numeric and
boolean literals and interpolation-free template literals. -/
def isClaimedStaticForm (e : ANode) : Prop :=
  (∃ a b s r, e = ANode.literal a b (LitVal.str s) r) ∨
  (∃ a b n r, e = ANode.literal a b (LitVal.num n) r) ∨
  (∃ a b bl r, e = ANode.literal a b (LitVal.bool bl) r) ∨
  (∃ a b qs, e = ANode.templateLiteral a b qs ANodeList.nil)

/-- `null` literal: classified static by `isStaticValue` but not one of the
spec's four static forms. -/
def nullLiteralNode : ANode := ANode.literal 0 4 LitVal.nullV "null"

/-- Numeric literal written `1e2` (value 100). -/
def numLiteralNode : ANode := ANode.literal 0 3 (LitVal.num 100) "1e2"

/-- `` `a\nb` ``: raw slice `a\nb` (backslash-n), cooked value a newline. -/
def escTemplateNode : ANode :=
  ANode.templateLiteral 0 8
    (ANodeList.cons (ANode.templateElement 1 7 "a\\nb" "a\nb" true) ANodeList.nil)
    ANodeList.nil

/-- Properties of `{color: 'red', ...xs, ['k']: 'v', w: dyn}` (spans into an
arbitrary source text). -/
def wProps1 : ANodeList :=
  ANodeList.cons (ANode.property 1 8 false PropKind.init
      (ANode.identifier 1 2 "color") (ANode.literal 4 8 (LitVal.str "red") "'red'"))
    (ANodeList.cons (ANode.spreadElement 10 15 (ANode.identifier 13 15 "xs"))
      (ANodeList.cons (ANode.property 17 25 true PropKind.init
          (ANode.literal 18 21 (LitVal.str "k") "'k'")
          (ANode.literal 23 25 (LitVal.str "v") "'v'"))
        (ANodeList.cons (ANode.property 27 32 false PropKind.init
            (ANode.identifier 27 28 "w") (ANode.identifier 31 32 "dyn"))
          ANodeList.nil)))

def wSrc1 : String := "0123456789abcdefghijklmnopqrstuvwxyz0123456789"

/-- `<div style={{a: b}} />`, all-dynamic style object. -/
def wProp2 : ANode :=
  ANode.property 13 17 false PropKind.init (ANode.identifier 13 14 "a")
    (ANode.identifier 16 17 "b")

def wStyleAttr2 : ANode :=
  ANode.jsxAttribute 5 19 (ANode.jsxIdentifier 5 10 "style")
    (OptANode.some (ANode.jsxExpressionContainer 11 19
      (ANode.objectExpression 12 18 (ANodeList.cons wProp2 ANodeList.nil))))

def wEl2 : ANode :=
  ANode.jsxElement 0 22
    (ANode.jsxOpeningElement 0 22 (ANode.jsxIdentifier 1 4 "div")
      (ANodeList.cons wStyleAttr2 ANodeList.nil) true)
    OptANode.none ANodeList.nil

def wSrc2 : String := "<div style=\x7b\x7ba: b\x7d\x7d />"

def wInput2 : TransformInput := ⟨wEl2, wSrc2, 13, "card", "className"⟩

def wInfo2 : StyleInfo :=
  ⟨ANodeList.cons wStyleAttr2 ANodeList.nil, 5, 19, 12, 18,
    ANodeList.cons wProp2 ANodeList.nil⟩

/-- Attribute list with only a style attribute (for the rewriter claims). -/
def wAttrs5 : ANodeList :=
  ANodeList.cons (ANode.jsxAttribute 5 25 (ANode.jsxIdentifier 5 10 "style")
    (OptANode.some (ANode.jsxExpressionContainer 11 25
      (ANode.objectExpression 12 24 ANodeList.nil)))) ANodeList.nil

/-- `<div class="old" style={{color: 'red'}} />`. -/
def wClassVal7 : ANode := ANode.literal 11 16 (LitVal.str "old") "\"old\""

def wClassAttr7 : ANode :=
  ANode.jsxAttribute 5 16 (ANode.jsxIdentifier 5 10 "class") (OptANode.some wClassVal7)

def wProp7 : ANode :=
  ANode.property 25 37 false PropKind.init (ANode.identifier 25 30 "color")
    (ANode.literal 32 37 (LitVal.str "red") "'red'")

def wStyleAttr7 : ANode :=
  ANode.jsxAttribute 17 39 (ANode.jsxIdentifier 17 22 "style")
    (OptANode.some (ANode.jsxExpressionContainer 23 39
      (ANode.objectExpression 24 38 (ANodeList.cons wProp7 ANodeList.nil))))

def wAttrs7 : ANodeList :=
  ANodeList.cons wClassAttr7 (ANodeList.cons wStyleAttr7 ANodeList.nil)

def wEl7 : ANode :=
  ANode.jsxElement 0 42
    (ANode.jsxOpeningElement 0 42 (ANode.jsxIdentifier 1 4 "div") wAttrs7 true)
    OptANode.none ANodeList.nil

def wSrc7 : String := "<div class=\"old\" style=\x7b\x7bcolor: 'red'\x7d\x7d />"

def wInput7 : TransformInput := ⟨wEl7, wSrc7, 26, "card", "class"⟩

/-- `<div` + newline + `style={{a: '1'}} />`: the style attribute is
preceded by a newline, not a space. -/
def wProp10 : ANode :=
  ANode.property 13 19 false PropKind.init (ANode.identifier 13 14 "a")
    (ANode.literal 16 19 (LitVal.str "1") "'1'")

def wStyleAttr10 : ANode :=
  ANode.jsxAttribute 5 21 (ANode.jsxIdentifier 5 10 "style")
    (OptANode.some (ANode.jsxExpressionContainer 11 21
      (ANode.objectExpression 12 20 (ANodeList.cons wProp10 ANodeList.nil))))

def wEl10 : ANode :=
  ANode.jsxElement 0 24
    (ANode.jsxOpeningElement 0 24 (ANode.jsxIdentifier 1 4 "div")
      (ANodeList.cons wStyleAttr10 ANodeList.nil) true)
    OptANode.none ANodeList.nil

def wSrc10 : String := "<div\nstyle=\x7b\x7ba: '1'\x7d\x7d />"

def wInfo10 : StyleInfo :=
  ⟨ANodeList.cons wStyleAttr10 ANodeList.nil, 5, 21, 12, 20,
    ANodeList.cons wProp10 ANodeList.nil⟩

/-! ### Lemmas about the class-existence scan -/

theorem stripLead_eq_some (p : List Char) : ∀ s r : List Char,
    stripLead p s = some r ↔ s = p ++ r := by
  induction p with
  | nil =>
    intro s r
    simp [stripLead]
  | cons x xs ih =>
    intro s r
    cases s with
    | nil => simp [stripLead]
    | cons c cs =>
      by_cases h : c = x
      · subst h
        simp [stripLead, ih]
      · simp only [stripLead, if_neg h, List.cons_append, List.cons.injEq]
        constructor
        · intro h'; exact Option.noConfusion h'
        · intro h'; exact absurd h'.1 h

theorem wsOpen_iff (l : List Char) : wsOpen l = true ↔
    ∃ ws v, l = ws ++ '\x7b' :: v ∧ ∀ c ∈ ws, isJsWs c = true := by
  induction l with
  | nil =>
    simp only [wsOpen]
    constructor
    · intro h; exact absurd h (by simp)
    · rintro ⟨ws, v, h, -⟩
      exact absurd h (by simp)
  | cons c r ih =>
    simp only [wsOpen]
    by_cases hb : c = '\x7b'
    · subst hb
      simp only [if_pos rfl]
      constructor
      · intro _
        exact ⟨[], r, rfl, by simp⟩
      · intro _; rfl
    · rw [if_neg hb]
      by_cases hw : isJsWs c = true
      · rw [if_pos hw, ih]
        constructor
        · rintro ⟨ws, v, hl, hws⟩
          refine ⟨c :: ws, v, by simp [hl], ?_⟩
          intro x hx
          rcases List.mem_cons.1 hx with h | h
          · subst h; exact hw
          · exact hws x h
        · rintro ⟨ws, v, hl, hws⟩
          cases ws with
          | nil =>
            simp only [List.nil_append, List.cons.injEq] at hl
            exact absurd hl.1 hb
          | cons w ws' =>
            simp only [List.cons_append, List.cons.injEq] at hl
            exact ⟨ws', v, hl.2, fun x hx => hws x (List.mem_cons_of_mem _ hx)⟩
      · rw [if_neg hw]
        constructor
        · intro h; exact absurd h (by simp)
        · rintro ⟨ws, v, hl, hws⟩
          cases ws with
          | nil =>
            simp only [List.nil_append, List.cons.injEq] at hl
            exact absurd hl.1 hb
          | cons w ws' =>
            simp only [List.cons_append, List.cons.injEq] at hl
            exact absurd (hl.1 ▸ hws w (by simp)) hw

theorem matchAt_iff (name s : List Char) : matchAt name s = true ↔
    ∃ r', s = '.' :: (name ++ r') ∧ wsOpen r' = true := by
  cases s with
  | nil => simp [matchAt]
  | cons c r =>
    by_cases hc : c = '.'
    · subst hc
      simp only [matchAt]
      cases h : stripLead name r with
      | none =>
        simp only [Bool.false_eq_true, false_iff]
        rintro ⟨r', hr, -⟩
        simp only [List.cons.injEq, true_and] at hr
        rw [hr] at h
        rw [(stripLead_eq_some name (name ++ r') r').2 rfl] at h
        exact Option.noConfusion h
      | some r' =>
        have := (stripLead_eq_some name r r').1 h
        subst this
        constructor
        · intro hw; exact ⟨r', rfl, hw⟩
        · rintro ⟨r'', hr, hw⟩
          simp only [List.cons.injEq, true_and] at hr
          have : r'' = r' := by
            have := List.append_cancel_left hr
            exact this.symm
          exact this ▸ hw
    · constructor
      · intro h
        exfalso
        simp only [matchAt] at h
        split at h
        · rename_i heq
          simp only [List.cons.injEq] at heq
          exact hc heq.1
        · exact Bool.noConfusion h
      · rintro ⟨r', hr, -⟩
        simp only [List.cons.injEq] at hr
        exact absurd hr.1 hc

theorem hasClassPattern_iff (name css : List Char) :
    hasClassPattern name css = true ↔
      ∃ u ws v, css = u ++ '.' :: (name ++ (ws ++ '\x7b' :: v)) ∧
        ∀ c ∈ ws, isJsWs c = true := by
  induction css with
  | nil =>
    simp only [hasClassPattern]
    constructor
    · intro h; exact absurd h (by simp)
    · rintro ⟨u, ws, v, h, -⟩
      exact absurd h (by simp)
  | cons c r ih =>
    simp only [hasClassPattern, Bool.or_eq_true]
    constructor
    · rintro (h | h)
      · rcases (matchAt_iff name (c :: r)).1 h with ⟨r', hr, hw⟩
        rcases (wsOpen_iff r').1 hw with ⟨ws, v, hv, hws⟩
        exact ⟨[], ws, v, by simp [hr, hv], hws⟩
      · rcases ih.1 h with ⟨u, ws, v, hr, hws⟩
        exact ⟨c :: u, ws, v, by simp [hr], hws⟩
    · rintro ⟨u, ws, v, hr, hws⟩
      cases u with
      | nil =>
        left
        simp only [List.nil_append] at hr
        refine (matchAt_iff name (c :: r)).2 ⟨ws ++ '\x7b' :: v, hr, ?_⟩
        exact (wsOpen_iff _).2 ⟨ws, v, rfl, hws⟩
      | cons x u' =>
        right
        simp only [List.cons_append, List.cons.injEq] at hr
        exact ih.2 ⟨u', ws, v, hr.2, hws⟩

/-! ### Behaviour of the unique-name generator -/

theorem guLoop_spec (css : String) (tag : Option String) (maxRetries : Nat)
    (stream : Nat → Fin 1000) :
    ∀ fuel attempts cn, maxRetries ≤ attempts + fuel →
      (∃ d : Fin 1000, cn = generateRandomClassName tag d) →
      (∃ nm, guLoop css tag maxRetries stream attempts cn = Except.ok nm ∧
        (∃ d : Fin 1000, nm = generateRandomClassName tag d) ∧
        classExistsInCSS css nm = false) ∨
      guLoop css tag maxRetries stream attempts cn = Except.error maxRetriesMessage := by
  intro fuel
  induction fuel with
  | zero =>
    intro attempts cn hle hcn
    unfold guLoop
    split
    · rename_i h
      exact absurd h.2 (by omega)
    · rw [if_pos (by omega)]
      exact Or.inr rfl
  | succ n ih =>
    intro attempts cn hle hcn
    unfold guLoop
    split
    · exact ih (attempts + 1) _ (by omega) ⟨stream (attempts + 1), rfl⟩
    · rename_i hcond
      by_cases hmax : maxRetries ≤ attempts
      · rw [if_pos hmax]
        exact Or.inr rfl
      · rw [if_neg hmax]
        refine Or.inl ⟨cn, rfl, hcn, ?_⟩
        have : ¬ classExistsInCSS css cn = true := fun hex => hcond ⟨hex, by omega⟩
        simpa using this

theorem guLoop_error_of_all (css : String) (tag : Option String) (maxRetries : Nat)
    (stream : Nat → Fin 1000)
    (hall : ∀ d : Fin 1000, classExistsInCSS css (generateRandomClassName tag d) = true) :
    ∀ fuel attempts cn, maxRetries ≤ attempts + fuel →
      (∃ d : Fin 1000, cn = generateRandomClassName tag d) →
      guLoop css tag maxRetries stream attempts cn = Except.error maxRetriesMessage := by
  intro fuel
  induction fuel with
  | zero =>
    intro attempts cn hle hcn
    unfold guLoop
    split
    · rename_i h
      exact absurd h.2 (by omega)
    · rw [if_pos (by omega)]
  | succ n ih =>
    intro attempts cn hle hcn
    unfold guLoop
    split
    · exact ih (attempts + 1) _ (by omega) ⟨stream (attempts + 1), rfl⟩
    · rename_i hcond
      obtain ⟨d, rfl⟩ := hcn
      have : ¬ attempts < maxRetries := fun hlt => hcond ⟨hall d, hlt⟩
      rw [if_pos (by omega)]

theorem cssBlock_mem : ∀ count i, i < count →
    ∃ u w, cssAllData count = u ++ cssBlock i ++ w := by
  intro count
  induction count with
  | zero => intro i h; omega
  | succ k ih =>
    intro i h
    by_cases hik : i < k
    · obtain ⟨u, w, hw⟩ := ih i hik
      exact ⟨u, w ++ cssBlock k, by simp [cssAllData, hw]⟩
    · have : i = k := by omega
      subst this
      exact ⟨cssAllData i, [], by simp [cssAllData]⟩

theorem generateRandomClassName_t (d : Fin 1000) :
    generateRandomClassName (some "t") d = "t-" ++ toString d.val := by
  show (if ("t" : String) = "" then "element" else "t") ++ "-" ++ toString d.val = _
  rw [if_neg (by decide)]
  congr 1

theorem cssThousand_all (d : Fin 1000) :
    classExistsInCSS cssThousand (generateRandomClassName (some "t") d) = true := by
  rw [generateRandomClassName_t]
  show hasClassPattern ("t-" ++ toString d.val).data cssThousand.data = true
  obtain ⟨u, w, hw⟩ := cssBlock_mem 1000 d.val d.isLt
  refine (hasClassPattern_iff _ _).2 ⟨u, [' '], '\x7d' :: '\n' :: w, ?_, ?_⟩
  · show cssAllData 1000 = _
    rw [hw]
    simp [cssBlock]
  · intro c hc
    simp only [List.mem_singleton] at hc
    subst hc
    decide

/-- Claim C8: `generateUniqueClassName` either returns a name of the form
`{tagHint ?? "element"}-{n}` (`n` in `0..999`) that does not exist in the
CSS text, or fails with the retry-exhaustion error; it is total (the Lean
model terminates by construction) and never returns a colliding name.  In
particular, on a CSS text containing `.t-0` through `.t-999` with
`maxRetries = 10`, it fails for every possible random stream. -/
theorem claim_C8_unique_name :
    (∀ (css : String) (tag : Option String) (maxRetries : Nat)
        (stream : Nat → Fin 1000),
      (∀ nm, generateUniqueClassName css tag maxRetries stream = Except.ok nm →
        (∃ d : Fin 1000, nm = generateRandomClassName tag d) ∧
        classExistsInCSS css nm = false) ∧
      ((∃ nm, generateUniqueClassName css tag maxRetries stream = Except.ok nm) ∨
        generateUniqueClassName css tag maxRetries stream =
          Except.error maxRetriesMessage)) ∧
    (∀ stream : Nat → Fin 1000,
      generateUniqueClassName cssThousand (some "t") 10 stream =
        Except.error maxRetriesMessage) := by
  constructor
  · intro css tag maxRetries stream
    have hspec := guLoop_spec css tag maxRetries stream maxRetries 0
      (generateRandomClassName tag (stream 0)) (by omega) ⟨stream 0, rfl⟩
    constructor
    · intro nm h
      unfold generateUniqueClassName at h
      rcases hspec with ⟨nm', h', hsh, hex⟩ | herr
      · have : nm' = nm := Except.ok.inj (h'.symm.trans h)
        subst this
        exact ⟨hsh, hex⟩
      · rw [herr] at h
        exact Except.noConfusion h
    · unfold generateUniqueClassName
      rcases hspec with ⟨nm', h', _, _⟩ | herr
      · exact Or.inl ⟨nm', h'⟩
      · exact Or.inr herr
  · intro stream
    unfold generateUniqueClassName
    exact guLoop_error_of_all cssThousand (some "t") 10 stream cssThousand_all
      10 0 _ (by omega) ⟨stream 0, rfl⟩

/-- Witness for C8: on an empty CSS text the generator returns the first
drawn name, which is well-formed and collision-free. -/
theorem claim_C8_unique_name_witness :
    (∃ d : Fin 1000, "element-0" = generateRandomClassName none d) ∧
      classExistsInCSS "" "element-0" = false := by
  apply (claim_C8_unique_name.1 "" none 100 (fun _ => ⟨0, by omega⟩)).1 "element-0"
  unfold generateUniqueClassName
  unfold guLoop
  rw [dif_neg (by decide)]
  rw [if_neg (by omega)]
  congr 1

/-- A character the legacy (non-unicode) JS regex engine treats as a literal
when interpolated into a pattern. -/
def isRegexLiteralChar (c : Char) : Bool := c.isAlphanum || c == '-' || c == '_'

/-- Claim C9: `classExistsInCSS(cssText, name)` returns `true` iff the CSS
text contains `.name`, optional whitespace, then `{` (for names made of
regex-literal characters, which is the shape of every name this program
generates or checks). -/
theorem claim_C9_class_pattern (cssContent className : String)
    (_hlit : ∀ c ∈ className.data, isRegexLiteralChar c = true) :
    classExistsInCSS cssContent className = true ↔
      ∃ u ws v, cssContent.data =
          u ++ '.' :: (className.data ++ (ws ++ '\x7b' :: v)) ∧
        ∀ c ∈ ws, isJsWs c = true :=
  hasClassPattern_iff className.data cssContent.data

/-- Witness for C9 at a concrete CSS text and class name. -/
theorem claim_C9_class_pattern_witness :
    classExistsInCSS ".card \x7b color: red; \x7d" "card" = true ∧
      ∃ u ws v, (".card \x7b color: red; \x7d" : String).data =
          u ++ '.' :: (("card" : String).data ++ (ws ++ '\x7b' :: v)) ∧
        ∀ c ∈ ws, isJsWs c = true := by
  have h := claim_C9_class_pattern ".card \x7b color: red; \x7d" "card" (by decide)
  have ht : classExistsInCSS ".card \x7b color: red; \x7d" "card" = true := by decide
  exact ⟨ht, h.1 ht⟩

/-! ### The partitioner as a pair of filters -/

theorem extractStyles_eq : ∀ (props : ANodeList) (src : String),
    extractStyles props src =
      (props.toList.filterMap staticEntryOf,
        props.toList.filterMap (dynEntryOf src))
  | .nil, src => by simp [extractStyles, ANodeList.toList]
  | .cons p rest, src => by
    have ih := extractStyles_eq rest src
    cases p
    case property s e computed kd key value =>
      by_cases hc : computed = true
      · subst hc
        simp [extractStyles, ANodeList.toList, staticEntryOf, dynEntryOf, ih]
      · have hc' : computed = false := by revert hc; cases computed <;> simp
        subst hc'
        cases hk : keyName key with
        | none =>
          simp [extractStyles, ANodeList.toList, staticEntryOf, dynEntryOf, hk, ih]
        | some name =>
          by_cases hs : isStaticValue value = true
          · simp [extractStyles, ANodeList.toList, staticEntryOf, dynEntryOf, hk, hs, ih]
          · have hs' : isStaticValue value = false := by
              revert hs; cases isStaticValue value <;> simp
            simp [extractStyles, ANodeList.toList, staticEntryOf, dynEntryOf, hk, hs', ih]
    all_goals simp [extractStyles, ANodeList.toList, staticEntryOf, dynEntryOf, ih]

theorem entryOf_partition (src : String) (p : ANode) (h : isObjMember p = true) :
    ((staticEntryOf p).isSome ∧ (dynEntryOf src p).isNone) ∨
    ((staticEntryOf p).isNone ∧ (dynEntryOf src p).isSome) := by
  cases p
  case property s e computed kd key value =>
    by_cases hc : computed = true
    · subst hc
      exact Or.inr (by simp [staticEntryOf, dynEntryOf])
    · have hc' : computed = false := by revert hc; cases computed <;> simp
      subst hc'
      cases hk : keyName key with
      | none => exact Or.inr (by simp [staticEntryOf, dynEntryOf, hk])
      | some name =>
        by_cases hs : isStaticValue value = true
        · exact Or.inl (by simp [staticEntryOf, dynEntryOf, hk, hs])
        · have hs' : isStaticValue value = false := by
            revert hs; cases isStaticValue value <;> simp
          exact Or.inr (by simp [staticEntryOf, dynEntryOf, hk, hs'])
  case spreadElement s e a => exact Or.inr (by simp [staticEntryOf, dynEntryOf])
  all_goals simp [isObjMember] at h

theorem filterMap_partition_length (src : String) :
    ∀ l : List ANode, (∀ p ∈ l, isObjMember p = true) →
      (l.filterMap staticEntryOf).length + (l.filterMap (dynEntryOf src)).length
        = l.length := by
  intro l
  induction l with
  | nil => simp
  | cons p t ih =>
    intro h
    have hp := entryOf_partition src p (h p (by simp))
    have ht := ih (fun q hq => h q (List.mem_cons_of_mem _ hq))
    rcases hp with ⟨h1, h2⟩ | ⟨h1, h2⟩
    · obtain ⟨x, hx⟩ := Option.isSome_iff_exists.1 h1
      have h2' : dynEntryOf src p = Option.none := Option.isNone_iff_eq_none.1 h2
      simp only [List.filterMap_cons, hx, h2', List.length_cons]
      omega
    · obtain ⟨x, hx⟩ := Option.isSome_iff_exists.1 h2
      have h1' : staticEntryOf p = Option.none := Option.isNone_iff_eq_none.1 h1
      simp only [List.filterMap_cons, hx, h1', List.length_cons]
      omega

/-- Claim C1: for every object-literal style expression, `extractStyles`
emits each property in exactly one of its two outputs — the static count
plus the dynamic count equals the property count, each output is the
order-preserving filter of the property list by the corresponding
per-property classification (so nothing is dropped or duplicated and
source order is preserved within each partition), and every property
(including spreads, computed keys and accessors, which classify dynamic)
lands in exactly one partition. -/
theorem claim_C1_partition (props : ANodeList) (src : String)
    (h : ∀ p ∈ props.toList, isObjMember p = true) :
    ((extractStyles props src).1.length + (extractStyles props src).2.length
        = props.toList.length) ∧
      (extractStyles props src).1 = props.toList.filterMap staticEntryOf ∧
      (extractStyles props src).2 = props.toList.filterMap (dynEntryOf src) ∧
      ∀ p ∈ props.toList,
        ((staticEntryOf p).isSome ∧ (dynEntryOf src p).isNone) ∨
        ((staticEntryOf p).isNone ∧ (dynEntryOf src p).isSome) := by
  have he := extractStyles_eq props src
  refine ⟨?_, ?_, ?_, fun p hp => entryOf_partition src p (h p hp)⟩
  · rw [he]
    exact filterMap_partition_length src props.toList h
  · rw [he]
  · rw [he]

/-- Witness for C1 on `{color: 'red', ...xs, ['k']: 'v', w: dyn}`. -/
theorem claim_C1_partition_witness :
    ((extractStyles wProps1 wSrc1).1.length + (extractStyles wProps1 wSrc1).2.length
        = wProps1.toList.length) ∧
      (extractStyles wProps1 wSrc1).1 = wProps1.toList.filterMap staticEntryOf ∧
      (extractStyles wProps1 wSrc1).2 = wProps1.toList.filterMap (dynEntryOf wSrc1) ∧
      ∀ p ∈ wProps1.toList,
        ((staticEntryOf p).isSome ∧ (dynEntryOf wSrc1 p).isNone) ∨
        ((staticEntryOf p).isNone ∧ (dynEntryOf wSrc1 p).isSome) :=
  claim_C1_partition wProps1 wSrc1 (by decide)

/-! ### The static-value classifier -/

/-- Claim C3 (amended): `isStaticValue` is total by construction and
classifies as static exactly the `Literal` nodes — of any value: string,
number, boolean, or `null` — and the template literals with zero
interpolated expressions; every other node kind is dynamic.  (The original
claim excluded the `null` literal; see the counterexample.) -/
theorem claim_C3_static_iff (e : ANode) :
    isStaticValue e = true ↔
      ((∃ a b v r, e = ANode.literal a b v r) ∨
        (∃ a b qs, e = ANode.templateLiteral a b qs ANodeList.nil)) := by
  cases e
  case literal a b v r =>
    simp only [isStaticValue, true_iff]
    exact Or.inl ⟨a, b, v, r, rfl⟩
  case templateLiteral a b qs exprs =>
    cases exprs with
    | nil =>
      constructor
      · intro _
        exact Or.inr ⟨a, b, qs, rfl⟩
      · intro _
        rfl
    | cons q qs' =>
      constructor
      · intro h
        simp only [isStaticValue, ANodeList.length, beq_iff_eq] at h
        omega
      · rintro (⟨a', b', v', r', h⟩ | ⟨a', b', qs'', h⟩)
        · exact ANode.noConfusion h
        · injection h with h1 h2 h3 h4
          exact ANodeList.noConfusion h4
  all_goals
    refine ⟨fun h => Bool.noConfusion h, ?_⟩
    rintro (⟨a', b', v', r', h⟩ | ⟨a', b', qs', h⟩) <;> exact ANode.noConfusion h

/-- Counterexample for C3 as stated: the `null` literal is not one of the
four claimed static forms, yet `isStaticValue` classifies it static. -/
theorem claim_C3_cex :
    isStaticValue nullLiteralNode = true ∧ ¬ isClaimedStaticForm nullLiteralNode := by
  refine ⟨rfl, ?_⟩
  rintro (⟨a, b, s, r, h⟩ | ⟨a, b, n, r, h⟩ | ⟨a, b, bl, r, h⟩ | ⟨a, b, qs, h⟩) <;>
    simp [nullLiteralNode] at h

/-- Claim C4 (amended): the text extracted for a static value is: the
decoded value for a string literal; `String(value)` — the decoded value's
canonical string, not the source text — for a numeric literal (and for
boolean/`null` literals the keyword text); and the *cooked* text of the
single quasi — escapes resolved, not the raw slice — for a
zero-interpolation template literal. -/
theorem claim_C4_static_text :
    (∀ (a b : Nat) (s r : String),
      getStaticValue (ANode.literal a b (LitVal.str s) r) = s) ∧
    (∀ (a b : Nat) (n : Int) (r : String),
      getStaticValue (ANode.literal a b (LitVal.num n) r) = toString n) ∧
    (∀ (a b : Nat) (bl : Bool) (r : String),
      getStaticValue (ANode.literal a b (LitVal.bool bl) r) =
        if bl then "true" else "false") ∧
    (∀ (a b : Nat) (r : String),
      getStaticValue (ANode.literal a b LitVal.nullV r) = "null") ∧
    (∀ (a b : Nat) (q : ANode) (qs : ANodeList),
      getStaticValue (ANode.templateLiteral a b (ANodeList.cons q qs) ANodeList.nil)
        = cookedOf q) :=
  ⟨fun _ _ _ _ => rfl, fun _ _ _ _ => rfl, fun _ _ _ _ => rfl,
    fun _ _ _ => rfl, fun _ _ _ _ => rfl⟩

/-- Counterexample for C4 as stated: the numeric literal written `1e2`
yields `"100"`, not its source text; the template `` `a\nb` `` yields the
cooked newline, not the raw backslash-n slice. -/
theorem claim_C4_cex :
    (getStaticValue numLiteralNode = "100" ∧ ("100" : String) ≠ "1e2") ∧
    (getStaticValue escTemplateNode = "a\nb" ∧ ("a\nb" : String) ≠ "a\\nb") :=
  ⟨⟨by decide, by decide⟩, ⟨rfl, by decide⟩⟩

/-! ### Class-name rendering -/

theorem isValidIdentifier_iff (s : String) :
    isValidIdentifier s = true ↔ identRegexSpec s := by
  unfold isValidIdentifier identRegexSpec
  cases hd : s.data with
  | nil => simp
  | cons c cs =>
    simp only [Bool.and_eq_true, List.all_eq_true, isAsciiLetter, isDigitChar,
      Bool.or_eq_true, decide_eq_true_eq]
    constructor
    · rintro ⟨h1, h2⟩
      refine ⟨by tauto, fun d hd' => ?_⟩
      have := h2 d hd'
      tauto
    · rintro ⟨h1, h2⟩
      refine ⟨by tauto, fun d hd' => ?_⟩
      have := h2 d hd'
      tauto

/-- Claim C6: the rewriter renders the class reference as `styles.<name>`
exactly when the name matches `^[A-Za-z][A-Za-z0-9]*$`, and as
`styles["<name>"]` otherwise; in particular `"card"` renders dot-accessed
and `"my-class"` bracket-indexed. -/
theorem claim_C6_class_rendering :
    (∀ name : String,
      classNameValueOf name = "styles." ++ name ↔ identRegexSpec name) ∧
    classNameValueOf "card" = "styles.card" ∧
    classNameValueOf "my-class" = "styles[\"my-class\"]" := by
  refine ⟨?_, by decide, by decide⟩
  intro name
  rw [← isValidIdentifier_iff]
  unfold classNameValueOf
  by_cases h : isValidIdentifier name = true
  · rw [if_pos h]
    simp [h]
  · rw [if_neg h]
    constructor
    · intro heq
      exfalso
      have hlen := congrArg String.length heq
      rw [String.length_append, String.length_append, String.length_append] at hlen
      have h1 : ("styles[\"" : String).length = 8 := rfl
      have h2 : ("\"]" : String).length = 2 := rfl
      have h3 : ("styles." : String).length = 7 := rfl
      rw [h1, h2, h3] at hlen
      omega
    · intro hv
      exact absurd hv h

/-! ### No-op transform when every property is dynamic -/

theorem transformOnElement_noop (src cn ca : String) (e : ANode) (info : StyleInfo)
    (h2 : styleInfoOf e = Option.some info)
    (h3 : (extractStyles info.props src).1 = []) :
    transformOnElement src cn ca e =
      Option.some (TransformResult.mk src [] (elemNameOf e) cn) := by
  unfold transformOnElement
  rw [h2]
  simp [h3]

/-- Claim C2: whenever the resolver locates a style-bearing element whose
style properties all classify dynamic (the static list is empty), the
transform returns the original source text unchanged with an empty
`extractedStyles` list — a defined no-op `some` result, not `none`. -/
theorem claim_C2_noop (input : TransformInput) (e : ANode) (info : StyleInfo)
    (h1 : findJSXElementWithStyleAtPosition input.ast input.offset = Option.some e)
    (h2 : styleInfoOf e = Option.some info)
    (h3 : (extractStyles info.props input.sourceCode).1 = []) :
    transformJsxStyleToClassName input =
      Option.some (TransformResult.mk input.sourceCode [] (elemNameOf e)
        input.className) := by
  unfold transformJsxStyleToClassName
  rw [h1]
  exact transformOnElement_noop _ _ _ e info h2 h3

/-- Witness for C2 on `<div style={{a: b}} />` with the cursor inside the
object: the resolver finds the div, the only property is dynamic, and the
transform returns the document unchanged. -/
theorem claim_C2_noop_witness :
    transformJsxStyleToClassName wInput2 =
      Option.some (TransformResult.mk wSrc2 [] (elemNameOf wEl2) "card") :=
  claim_C2_noop wInput2 wEl2 wInfo2 rfl rfl rfl

/-! ### The style-attribute handling of the rewriter -/

/-- Claim C5: whenever static styles were extracted, the edit list ends with
exactly one style edit: with dynamic properties remaining it writes a new
object literal containing exactly the dynamic entries' original source
texts joined by `", "` in source order (either replacing the old object
literal in place, or inside the single replacement-attribute edit);
with none remaining it removes the span from `removeStartOf` (one character
left of the attribute exactly when a space precedes it) to the attribute
end, re-inserting no style attribute.  At most one further edit (the class
attribute merge) precedes it. -/
theorem claim_C5_style_edit (src : String) (attrs : ANodeList)
    (attrStart attrEnd exprStart exprEnd : Nat) (ds : List DynProp) (cn ca : String) :
    (ds ≠ [] →
      ∃ pre styleEdit,
        buildEdits src attrs attrStart attrEnd exprStart exprEnd ds cn ca =
            pre ++ [styleEdit] ∧
          pre.length ≤ 1 ∧
          (styleEdit = Edit.mk exprStart exprEnd (dynObjLit ds) ∨
            styleEdit = Edit.mk (removeStartOf src attrStart) attrEnd
              (" " ++ ca ++ "=\x7b" ++ classNameValueOf cn ++ "\x7d style=\x7b" ++
                dynObjLit ds ++ "\x7d"))) ∧
    (ds = [] →
      ∃ pre styleEdit,
        buildEdits src attrs attrStart attrEnd exprStart exprEnd ds cn ca =
            pre ++ [styleEdit] ∧
          pre.length ≤ 1 ∧
          styleEdit.start = removeStartOf src attrStart ∧
          styleEdit.stop = attrEnd ∧
          (styleEdit.replacement = "" ∨
            styleEdit.replacement =
              " " ++ ca ++ "=\x7b" ++ classNameValueOf cn ++ "\x7d") ∧
          (sliceStr src (attrStart - 1) attrStart = " " →
            removeStartOf src attrStart = attrStart - 1) ∧
          (sliceStr src (attrStart - 1) attrStart ≠ " " →
            removeStartOf src attrStart = attrStart)) := by
  have hrm1 : sliceStr src (attrStart - 1) attrStart = " " →
      removeStartOf src attrStart = attrStart - 1 := by
    intro h
    simp [removeStartOf, h]
  have hrm2 : sliceStr src (attrStart - 1) attrStart ≠ " " →
      removeStartOf src attrStart = attrStart := by
    intro h
    simp [removeStartOf, h]
  constructor
  · intro hds
    have hlen : 0 < ds.length := by
      cases ds with
      | nil => exact absurd rfl hds
      | cons a l => simp
    cases hfind : ANodeList.find? (fun a => isJsxAttrNamed a ca) attrs with
    | none =>
      simp only [buildEdits, hfind]
      rw [if_pos hlen]
      exact ⟨[], _, rfl, by simp, Or.inr rfl⟩
    | some a =>
      cases hv : attrValueNode a with
      | none =>
        simp only [buildEdits, hfind, hv]
        rw [if_pos hlen]
        exact ⟨[], _, rfl, by simp, Or.inl rfl⟩
      | some v =>
        simp only [buildEdits, hfind, hv]
        by_cases hbr : (startsWithChar (sliceStr src (startOf v) (endOf v)) '\x7b' &&
            endsWithChar (sliceStr src (startOf v) (endOf v)) '\x7d') = true
        · rw [if_pos hbr, if_pos hlen]
          exact ⟨[_], _, rfl, by simp, Or.inl rfl⟩
        · rw [if_neg hbr, if_pos hlen]
          exact ⟨[_], _, rfl, by simp, Or.inl rfl⟩
  · intro hds
    subst hds
    have hlen : ¬ 0 < ([] : List DynProp).length := by simp
    cases hfind : ANodeList.find? (fun a => isJsxAttrNamed a ca) attrs with
    | none =>
      simp only [buildEdits, hfind]
      rw [if_neg hlen]
      exact ⟨[], _, rfl, by simp, rfl, rfl, Or.inr rfl, hrm1, hrm2⟩
    | some a =>
      cases hv : attrValueNode a with
      | none =>
        simp only [buildEdits, hfind, hv]
        rw [if_neg hlen]
        exact ⟨[], _, rfl, by simp, rfl, rfl, Or.inl rfl, hrm1, hrm2⟩
      | some v =>
        simp only [buildEdits, hfind, hv]
        by_cases hbr : (startsWithChar (sliceStr src (startOf v) (endOf v)) '\x7b' &&
            endsWithChar (sliceStr src (startOf v) (endOf v)) '\x7d') = true
        · rw [if_pos hbr, if_neg hlen]
          exact ⟨[_], _, rfl, by simp, rfl, rfl, Or.inl rfl, hrm1, hrm2⟩
        · rw [if_neg hbr, if_neg hlen]
          exact ⟨[_], _, rfl, by simp, rfl, rfl, Or.inl rfl, hrm1, hrm2⟩

/-- Witness for C5: no pre-existing class attribute and one dynamic
property. -/
theorem claim_C5_style_edit_witness :
    ∃ pre styleEdit,
      buildEdits wSrc2 wAttrs5 5 25 12 24 [DynProp.mk 13 17 "b: c"] "card" "className" =
          pre ++ [styleEdit] ∧
        pre.length ≤ 1 ∧
        (styleEdit = Edit.mk 12 24 (dynObjLit [DynProp.mk 13 17 "b: c"]) ∨
          styleEdit = Edit.mk (removeStartOf wSrc2 5) 25
            (" " ++ "className" ++ "=\x7b" ++ classNameValueOf "card" ++ "\x7d style=\x7b" ++
              dynObjLit [DynProp.mk 13 17 "b: c"] ++ "\x7d")) :=
  (claim_C5_style_edit wSrc2 wAttrs5 5 25 12 24 [DynProp.mk 13 17 "b: c"] "card"
    "className").1 (by simp)

/-! ### Merging with a pre-existing class attribute -/

/-- Claim C7 (amended): when the element already carries an attribute named
by the class-attribute convention and its value is present, the rewriter
edits that value: if the existing value text is brace-delimited (an
expression container), the replacement is a template-join expression
combining the old expression and the new class reference, space-joined at
runtime; otherwise — in particular for a plain string literal — the value
is **replaced** by `{classNameValue}`, discarding the old string (no
string concatenation).  The style edit follows as the second and last
edit. -/
theorem claim_C7_merge (src : String) (attrs : ANodeList)
    (attrStart attrEnd exprStart exprEnd : Nat) (ds : List DynProp) (cn ca : String)
    (a v : ANode)
    (hfind : ANodeList.find? (fun x => isJsxAttrNamed x ca) attrs = Option.some a)
    (hv : attrValueNode a = Option.some v) :
    ∃ styleEdit,
      ((startsWithChar (sliceStr src (startOf v) (endOf v)) '\x7b' &&
          endsWithChar (sliceStr src (startOf v) (endOf v)) '\x7d') = true →
        buildEdits src attrs attrStart attrEnd exprStart exprEnd ds cn ca =
          [Edit.mk (startOf v) (endOf v)
              ("\x7b`$\x7b" ++ innerSlice (sliceStr src (startOf v) (endOf v)) ++
                "\x7d $\x7b" ++ classNameValueOf cn ++ "\x7d`\x7d"),
            styleEdit]) ∧
      ((startsWithChar (sliceStr src (startOf v) (endOf v)) '\x7b' &&
          endsWithChar (sliceStr src (startOf v) (endOf v)) '\x7d') = false →
        buildEdits src attrs attrStart attrEnd exprStart exprEnd ds cn ca =
          [Edit.mk (startOf v) (endOf v) ("\x7b" ++ classNameValueOf cn ++ "\x7d"),
            styleEdit]) := by
  refine ⟨if 0 < ds.length then Edit.mk exprStart exprEnd (dynObjLit ds)
    else Edit.mk (removeStartOf src attrStart) attrEnd "", ?_, ?_⟩
  · intro hbr
    simp only [buildEdits, hfind, hv]
    rw [if_pos hbr]
    by_cases hlen : 0 < ds.length
    · rw [if_pos hlen, if_pos hlen]
      rfl
    · rw [if_neg hlen, if_neg hlen]
      rfl
  · intro hbr
    simp only [buildEdits, hfind, hv]
    rw [if_neg (by simp [hbr])]
    by_cases hlen : 0 < ds.length
    · rw [if_pos hlen, if_pos hlen]
      rfl
    · rw [if_neg hlen, if_neg hlen]
      rfl

/-- Witness for C7 (amended) at the concrete attribute list of
`<div class="old" style={{color: 'red'}} />`. -/
theorem claim_C7_merge_witness :
    ∃ styleEdit,
      ((startsWithChar (sliceStr wSrc7 (startOf wClassVal7) (endOf wClassVal7)) '\x7b' &&
          endsWithChar (sliceStr wSrc7 (startOf wClassVal7) (endOf wClassVal7)) '\x7d') = true →
        buildEdits wSrc7 wAttrs7 17 39 24 38 [] "card" "class" =
          [Edit.mk (startOf wClassVal7) (endOf wClassVal7)
              ("\x7b`$\x7b" ++ innerSlice (sliceStr wSrc7 (startOf wClassVal7) (endOf wClassVal7)) ++
                "\x7d $\x7b" ++ classNameValueOf "card" ++ "\x7d`\x7d"),
            styleEdit]) ∧
      ((startsWithChar (sliceStr wSrc7 (startOf wClassVal7) (endOf wClassVal7)) '\x7b' &&
          endsWithChar (sliceStr wSrc7 (startOf wClassVal7) (endOf wClassVal7)) '\x7d') = false →
        buildEdits wSrc7 wAttrs7 17 39 24 38 [] "card" "class" =
          [Edit.mk (startOf wClassVal7) (endOf wClassVal7)
              ("\x7b" ++ classNameValueOf "card" ++ "\x7d"),
            styleEdit]) :=
  claim_C7_merge wSrc7 wAttrs7 17 39 24 38 [] "card" "class" wClassAttr7 wClassVal7
    rfl rfl

/-- Counterexample for C7 as stated: on
`<div class="old" style={{color: 'red'}} />` the old string-literal class
value `"old"` is discarded, not concatenated — the output contains
`class={styles.card}` and no trace of `old`. -/
theorem claim_C7_cex :
    transformJsxStyleToClassName wInput7 =
      Option.some (TransformResult.mk "<div class=\x7bstyles.card\x7d />"
        [⟨"color", "red"⟩] "div" "card") ∧
    strContains wSrc7 "old" = true ∧
    strContains "<div class=\x7bstyles.card\x7d />" "old" = false :=
  ⟨rfl, by decide, by decide⟩

/-! ### The always-inserted leading space -/

/-- Claim C10: in the no-pre-existing-class branch with static styles
extracted, the single replacement edit spans exactly the style attribute
(the removal is not widened, since no space precedes) and its replacement
text begins with exactly one space (the next character is the `c` of the
class attribute name); consequently the output document is the unchanged
prefix up to the style attribute, then a space that was not present in the
input, then the new class attribute. -/
theorem claim_C10_leading_space (src cn ca : String) (e : ANode) (info : StyleInfo)
    (h2 : styleInfoOf e = Option.some info)
    (hno : ANodeList.find? (fun a => isJsxAttrNamed a ca) info.attrs = Option.none)
    (hss : (extractStyles info.props src).1 ≠ [])
    (hsp : sliceStr src (info.attrStart - 1) info.attrStart ≠ " ")
    (hca : ca = "class" ∨ ca = "className") :
    ∃ rest : String,
      buildEdits src info.attrs info.attrStart info.attrEnd info.exprStart
          info.exprEnd (extractStyles info.props src).2 cn ca =
        [Edit.mk info.attrStart info.attrEnd (" " ++ rest)] ∧
      rest.data.head? = Option.some 'c' ∧
      transformOnElement src cn ca e =
        Option.some (TransformResult.mk
          (sliceStr src 0 info.attrStart ++ (" " ++ rest) ++ sliceFrom src info.attrEnd)
          (extractStyles info.props src).1 (elemNameOf e) cn) := by
  have hrm : removeStartOf src info.attrStart = info.attrStart := by
    simp [removeStartOf, hsp]
  have hlenz : ((extractStyles info.props src).1.length == 0) = false := by
    cases hx : (extractStyles info.props src).1 with
    | nil => exact absurd hx hss
    | cons y ys => simp
  by_cases hlen : 0 < (extractStyles info.props src).2.length
  · refine ⟨ca ++ "=\x7b" ++ classNameValueOf cn ++ "\x7d style=\x7b" ++
      dynObjLit (extractStyles info.props src).2 ++ "\x7d", ?_, ?_, ?_⟩
    · simp only [buildEdits, hno]
      rw [if_pos hlen, hrm]
      simp [String.append_assoc]
    · rcases hca with h | h <;> subst h <;> rfl
    · unfold transformOnElement
      rw [h2]
      simp only [hlenz, Bool.false_eq_true, if_false]
      simp only [buildEdits, hno]
      rw [if_pos hlen, hrm]
      simp [sortEditsDesc, insertDesc, applyEdits, applyEdit, String.append_assoc]
  · refine ⟨ca ++ "=\x7b" ++ classNameValueOf cn ++ "\x7d", ?_, ?_, ?_⟩
    · simp only [buildEdits, hno]
      rw [if_neg hlen, hrm]
      simp [String.append_assoc]
    · rcases hca with h | h <;> subst h <;> rfl
    · unfold transformOnElement
      rw [h2]
      simp only [hlenz, Bool.false_eq_true, if_false]
      simp only [buildEdits, hno]
      rw [if_neg hlen, hrm]
      simp [sortEditsDesc, insertDesc, applyEdits, applyEdit, String.append_assoc]

/-- Witness for C10 on `<div` + newline + `style={{a: '1'}} />`: the
character before the style attribute is a newline, and the transformed
output gains a space that the input did not have. -/
theorem claim_C10_leading_space_witness :
    ∃ rest : String,
      buildEdits wSrc10 wInfo10.attrs wInfo10.attrStart wInfo10.attrEnd
          wInfo10.exprStart wInfo10.exprEnd (extractStyles wInfo10.props wSrc10).2
          "card" "className" =
        [Edit.mk wInfo10.attrStart wInfo10.attrEnd (" " ++ rest)] ∧
      rest.data.head? = Option.some 'c' ∧
      transformOnElement wSrc10 "card" "className" wEl10 =
        Option.some (TransformResult.mk
          (sliceStr wSrc10 0 wInfo10.attrStart ++ (" " ++ rest) ++
            sliceFrom wSrc10 wInfo10.attrEnd)
          (extractStyles wInfo10.props wSrc10).1 (elemNameOf wEl10) "card") :=
  claim_C10_leading_space wSrc10 "card" "className" wEl10 wInfo10 rfl rfl
    (by decide) (by decide) (Or.inr rfl)
